import Mathlib

/-!
Shallow embedding of the slice-interpolation and mask-refinement engine of the
HECKTOR annotation tool (`src/main.py`): the Volume Compositor
(`_smart_interpolate`), the Gap Interpolator
(`_advanced_interpolate_gap_multiclass`) and the Morphological Cleaner
(`_cleanup_segmentation`).

Modelling conventions:
* 2-D boolean masks and label planes are either concrete matrices
  (`List (List _)`, used by the Morphological Cleaner, which is evaluated on
  concrete inputs) or total functions `Nat → Nat → _` together with explicit
  dimensions (used by the compositor / interpolator).
* numpy float arithmetic is modelled over `ℚ`; all thresholds compared against
  (0.3, 0.4, ...) are far from the rounding error of the float sums that occur
  (sums of the weights 0.1 .. 0.5), so every comparison verdict agrees with the
  IEEE-double computation of the source.
* The external library kernels `skimage.filters.gaussian` (sigma 1.0 and 2.0)
  and `scipy.ndimage.distance_transform_edt` are opaque collaborators of the
  core: they are abstracted as the fields of `NumOps`.  The morphological
  operators (`binary_opening`/`binary_closing` with `disk(1)`/`disk(2)`,
  `remove_small_objects`, `remove_small_holes`, default 4-connectivity) and
  `np.percentile` are implemented from their library semantics, because the
  claims quantify over their outputs.
* skimage border conventions: `binary_erosion` treats out-of-image pixels as
  foreground (`border_value=1`), `binary_dilation` as background.
-/

namespace Hecktor

/-- A 2-D boolean mask as a total function of (row, column). -/
abbrev BGrid := Nat → Nat → Bool

/-- A 2-D rational-valued plane (models a numpy float 2-D array). -/
abbrev QGrid := Nat → Nat → ℚ

/-- A 2-D plane of integer class labels. -/
abbrev LSlice := Nat → Nat → Nat

/-- A 3-D label volume as a total function of (slice, row, column). -/
abbrev LVol := Nat → Nat → Nat → Nat

/-- A 3-D PET intensity volume. -/
abbrev QVol := Nat → QGrid

/-- Concrete boolean matrix. -/
abbrev BMat := List (List Bool)

/-- Concrete matrix of natural numbers (labels or component ids). -/
abbrev NMat := List (List Nat)

/-- Read a boolean matrix at signed coordinates, `dflt` outside the matrix. -/
def bmGet (m : BMat) (y x : Int) (dflt : Bool) : Bool :=
  if 0 ≤ y ∧ 0 ≤ x then (m.getD y.toNat []).getD x.toNat dflt else dflt

/-- Read an `NMat` at (row, column), `0` outside the matrix. -/
def nmGet (m : NMat) (y x : Nat) : Nat := (m.getD y []).getD x 0

/-- Build an `h × w` boolean matrix from a function. -/
def bInit (h w : Nat) (f : Nat → Nat → Bool) : BMat :=
  (List.range h).map fun y => (List.range w).map fun x => f y x

/-- Build an `h × w` natural-number matrix from a function. -/
def nInit (h w : Nat) (f : Nat → Nat → Nat) : NMat :=
  (List.range h).map fun y => (List.range w).map fun x => f y x

/-- Footprint `skimage.morphology.disk(1)`: offsets with `dy^2 + dx^2 ≤ 1`. -/
def disk1 : List (Int × Int) := [(0, 0), (0, 1), (0, -1), (1, 0), (-1, 0)]

/-- Footprint `skimage.morphology.disk(2)`: offsets with `dy^2 + dx^2 ≤ 4`. -/
def disk2 : List (Int × Int) :=
  [(0, 0), (0, 1), (0, -1), (0, 2), (0, -2),
   (1, 0), (1, 1), (1, -1), (-1, 0), (-1, 1), (-1, -1),
   (2, 0), (-2, 0)]

/-- Binary erosion with a symmetric footprint; out-of-image pixels count as
foreground (skimage's `border_value=1`). -/
def erodeM (h w : Nat) (foot : List (Int × Int)) (m : BMat) : BMat :=
  bInit h w fun y x =>
    foot.all fun d =>
      if 0 ≤ (y : Int) + d.1 ∧ (y : Int) + d.1 < (h : Int) ∧
         0 ≤ (x : Int) + d.2 ∧ (x : Int) + d.2 < (w : Int) then
        bmGet m ((y : Int) + d.1) ((x : Int) + d.2) true
      else true

/-- Binary dilation with a symmetric footprint; out-of-image pixels count as
background (skimage's `border_value=0`). -/
def dilateM (h w : Nat) (foot : List (Int × Int)) (m : BMat) : BMat :=
  bInit h w fun y x =>
    foot.any fun d => bmGet m ((y : Int) + d.1) ((x : Int) + d.2) false

/-- Opening (`skimage.morphology.binary_opening`): erosion then dilation. -/
def openingM (h w : Nat) (foot : List (Int × Int)) (m : BMat) : BMat :=
  dilateM h w foot (erodeM h w foot m)

/-- Closing (`skimage.morphology.binary_closing`): dilation then erosion. -/
def closingM (h w : Nat) (foot : List (Int × Int)) (m : BMat) : BMat :=
  erodeM h w foot (dilateM h w foot m)

/-- Initial component ids: on-pixel (y,x) gets id `y*w + x + 1`, off-pixels 0. -/
def idGrid (h w : Nat) (m : BMat) : NMat :=
  nInit h w fun y x => if bmGet m y x false then y * w + x + 1 else 0

/-- Positive minimum of a neighbour id and the current id (0 = no component). -/
def minPos (a b : Nat) : Nat := if b = 0 then a else if a = 0 then b else min a b

/-- One sweep of minimum-label propagation over 4-connected on-pixels. -/
def propStep (h w : Nat) (m : BMat) (g : NMat) : NMat :=
  nInit h w fun y x =>
    if bmGet m y x false then
      let up := if y = 0 then 0 else nmGet g (y - 1) x
      let dn := nmGet g (y + 1) x
      let lf := if x = 0 then 0 else nmGet g y (x - 1)
      let rt := nmGet g y (x + 1)
      minPos (minPos (minPos (minPos (nmGet g y x) up) dn) lf) rt
    else 0

/-- Iterate propagation to a fixed point (fuel `h*w` always suffices). -/
def propagate (h w : Nat) (m : BMat) : Nat → NMat → NMat
  | 0, g => g
  | fuel + 1, g =>
      let g' := propStep h w m g
      if g' == g then g else propagate h w m fuel g'

/-- 4-connected component labels of a boolean matrix. -/
def compLabels (h w : Nat) (m : BMat) : NMat :=
  propagate h w m (h * w) (idGrid h w m)

/-- Number of pixels carrying component id `l`. -/
def compSize (g : NMat) (l : Nat) : Nat :=
  g.foldl (fun acc row => row.foldl (fun a v => if v = l then a + 1 else a) acc) 0

/-- Small-object removal (`skimage.morphology.remove_small_objects(m, min_size)`): drop 4-connected
components with fewer than `minSize` pixels. -/
def removeSmallObjectsM (h w minSize : Nat) (m : BMat) : BMat :=
  let lbls := compLabels h w m
  bInit h w fun y x =>
    bmGet m y x false && decide (minSize ≤ compSize lbls (nmGet lbls y x))

/-- Is any pixel of the matrix set? (`np.any(mask)`). -/
def anyPixM (m : BMat) : Bool := m.any fun row => row.any id

/-- Insert a value into an ascending duplicate-free list (`np.unique` order). -/
def insertUniq (a : Nat) : List Nat → List Nat
  | [] => [a]
  | b :: l => if a = b then b :: l else if a < b then a :: b :: l else b :: insertUniq a l

/-- Float cast of a boolean mask (`mask.astype(float)`). -/
def toQ (g : BGrid) : QGrid := fun y x => if g y x then 1 else 0

/-- The external numeric kernels used by the interpolator: Gaussian blur at
sigma 1.0 and sigma 2.0 (`skimage.filters.gaussian`) and the Euclidean distance
transform (`scipy.ndimage.distance_transform_edt` of a boolean plane).  They are
library collaborators, abstracted by the embedding. -/
structure NumOps where
  gaussian1 : Nat → Nat → QGrid → QGrid
  gaussian2 : Nat → Nat → QGrid → QGrid
  edt : Nat → Nat → BGrid → QGrid

/-- Test `np.any` over an `h × w` functional mask. -/
def anyPixF (h w : Nat) (g : BGrid) : Bool :=
  (List.range h).any fun y => (List.range w).any fun x => g y x

/-- Per-class boolean mask of a functional label plane (`plane == label`). -/
def maskOfF (s : LSlice) (label : Nat) : BGrid := fun y x => s y x == label

/-- The anchor scan of `_smart_interpolate`: the ascending list of slice indices
with at least one non-background voxel. -/
def anchorSlices (d h w : Nat) (v : LVol) : List Nat :=
  (List.range d).filter fun z => anyPixF h w fun y x => decide (0 < v z y x)

/-- The value of `np.unique(mask_data[mask_data > 0])` over a functional volume. -/
def uniqueLabelsF (d h w : Nat) (v : LVol) : List Nat :=
  ((List.range d).flatMap fun z =>
      (List.range h).flatMap fun y => (List.range w).map fun x => v z y x).foldl
    (fun acc val => if 0 < val then insertUniq val acc else acc) []

/-- Blending parameter `alpha = (i + 1) / (num_slices + 1)` of the Gap Interpolator. -/
def alphaInterp (i n : Nat) : ℚ := ((i : ℚ) + 1) / ((n : ℚ) + 1)

/-- Signed distance `edt(mask == 0) - edt(mask > 0)`: negative inside the mask. -/
def signedDistance (ops : NumOps) (h w : Nat) (b : BGrid) : QGrid := fun y x =>
  ops.edt h w (fun y' x' => !(b y' x')) y x - ops.edt h w b y x

/-- Distance-transform path: blend the signed fields, threshold at `≤ 0`. -/
def distanceMask (ops : NumOps) (h w : Nat) (sm em : BGrid) (alpha : ℚ) : BGrid :=
  fun y x =>
    decide ((1 - alpha) * signedDistance ops h w sm y x
      + alpha * signedDistance ops h w em y x ≤ 0)

/-- Smoothed-shape path: blend the sigma-2 blurs, threshold at `> 0.3`. -/
def morphMask (ops : NumOps) (h w : Nat) (sm em : BGrid) (alpha : ℚ) : BGrid :=
  fun y x =>
    decide ((0.3 : ℚ) < (1 - alpha) * ops.gaussian2 h w (toQ sm) y x
      + alpha * ops.gaussian2 h w (toQ em) y x)

/-- Insert into an ascending list of rationals. -/
def insertSortedQ (a : ℚ) : List ℚ → List ℚ
  | [] => [a]
  | b :: l => if a ≤ b then a :: b :: l else b :: insertSortedQ a l

/-- Insertion sort (ascending). -/
def sortQ (l : List ℚ) : List ℚ := l.foldr insertSortedQ []

/-- The order statistic at fractional index `pos` of a sorted list, linearly
interpolated between the two adjacent entries (indices clamped into range). -/
def interpAt (s : List ℚ) (pos : ℚ) : ℚ :=
  s.getD (min (⌊pos⌋).toNat (s.length - 1)) 0 +
    Int.fract pos *
      (s.getD (min ((⌊pos⌋).toNat + 1) (s.length - 1)) 0 -
        s.getD (min (⌊pos⌋).toNat (s.length - 1)) 0)

/-- Percentile `np.percentile(l, q)` with the default linear interpolation: the order
statistic at fractional index `q/100 * (n-1)` of the sorted data. -/
def percentileQ (q : ℚ) (l : List ℚ) : ℚ :=
  if l.length = 0 then 0
  else interpAt (sortQ l) (q * ((l.length : ℚ) - 1) / 100)

/-- Filter `current_pt[current_pt > 0]`: the positive values of a plane, in C order. -/
def posVals (h w : Nat) (s : QGrid) : List ℚ :=
  (List.range h).flatMap fun y =>
    (List.range w).filterMap fun x => if 0 < s y x then some (s y x) else none

/-- The nonzero values of a plane, in C order (the spec's wording). -/
def nonzeroVals (h w : Nat) (s : QGrid) : List ℚ :=
  (List.range h).flatMap fun y =>
    (List.range w).filterMap fun x => if s y x ≠ 0 then some (s y x) else none

/-- Test `np.any(current_pt > 0)`. -/
def anyPosQ (h w : Nat) (s : QGrid) : Bool :=
  (List.range h).any fun y => (List.range w).any fun x => decide (0 < s y x)

/-- PET threshold: 80th percentile of the positive values for class 1, else
60th; 0 when the plane has no positive value. -/
def ptThreshold (h w : Nat) (s : QGrid) (label : Nat) : ℚ :=
  if anyPosQ h w s then percentileQ (if label = 1 then 80 else 60) (posVals h w s) else 0

/-- Intensity-guided path: `current_pt > pt_threshold` when the threshold is
positive, else the all-false plane (`np.zeros_like`). -/
def ptMask (h w : Nat) (s : QGrid) (label : Nat) : BGrid :=
  if 0 < ptThreshold h w s label then fun y x => decide (ptThreshold h w s label < s y x)
  else fun _ _ => false

/-- Float value of a 0/1 mask pixel. -/
def bq (b : Bool) : ℚ := if b then 1 else 0

/-- Class-dependent fusion of the three path masks. -/
def combinedQ (label : Nat) (d m p : Bool) : ℚ :=
  if label = 1 then 0.4 * bq d + 0.2 * bq m + 0.4 * bq p
  else 0.5 * bq d + 0.4 * bq m + 0.1 * bq p

/-- Class-dependent decision threshold on the fused value. -/
def decisionThreshold (label : Nat) : ℚ := if label = 1 then 0.4 else 0.3

/-- The decided (pre-smoothing) mask of one interior slice: fused value
strictly above the class threshold. -/
def decidedMask (ops : NumOps) (h w : Nat) (sm em : BGrid) (pt : QGrid)
    (label : Nat) (alpha : ℚ) : BGrid := fun y x =>
  decide (decisionThreshold label <
    combinedQ label (distanceMask ops h w sm em alpha y x)
      (morphMask ops h w sm em alpha y x) (ptMask h w pt label y x))

/-- Per-slice smoothing of the interpolator: opening `disk(1)`, closing
`disk(2)`, drop components under 25 px — only when the mask is non-empty. -/
def interpCleanupM (h w : Nat) (m : BMat) : BMat :=
  if anyPixM m then removeSmallObjectsM h w 25 (closingM h w disk2 (openingM h w disk1 m))
  else m

/-- One interior slice of `_advanced_interpolate_gap_multiclass`:
`pts k` is the PET plane at offset `k` from the start anchor. -/
def advSlice (ops : NumOps) (h w : Nat) (sm em : BGrid) (pts : Nat → QGrid)
    (label n i : Nat) : BGrid := fun y x =>
  bmGet (interpCleanupM h w
    (bInit h w (decidedMask ops h w sm em (pts (i + 1)) label (alphaInterp i n)))) y x false

/-- Method `_advanced_interpolate_gap_multiclass`: the ordered interior masks. -/
def advInterp (ops : NumOps) (h w : Nat) (sm em : BGrid) (pts : Nat → QGrid)
    (label n : Nat) : List BGrid :=
  (List.range n).map (advSlice ops h w sm em pts label n)

/-- One composite write of the Volume Compositor:
`interpolated_mask[slice][mask] = label`. -/
structure Write where
  slice : Nat
  mask : BGrid
  label : Nat

/-- Fade parameter `alpha = (j + 1) / (end_slice - start_slice)` of the fade fallback. -/
def fadeAlpha (j gap : Nat) : ℚ := ((j : ℚ) + 1) / (gap : ℚ)

/-- Fade fallback mask: sigma-1 blur of the single available mask, thresholded
at the shifting cutoff. -/
def fadeMask (ops : NumOps) (h w : Nat) (active : BGrid) (cut : ℚ) : BGrid :=
  fun y x => decide (cut < ops.gaussian1 h w (toQ active) y x)

/-- The writes one class contributes inside one gap: full interpolation when
the class is present in both anchors, fade fallback when in exactly one,
nothing when in neither. -/
def gapClassWrites (ops : NumOps) (h w : Nat) (v : LVol) (ptv : QVol)
    (s e label : Nat) : List Write :=
  let sm := maskOfF (v s) label
  let em := maskOfF (v e) label
  if anyPixF h w sm && anyPixF h w em then
    (List.range (e - s - 1)).map fun j =>
      ⟨s + 1 + j, advSlice ops h w sm em (fun k => ptv (s + k)) label (e - s - 1) j, label⟩
  else if anyPixF h w sm || anyPixF h w em then
    (List.range (e - s - 1)).map fun j =>
      if anyPixF h w sm then
        ⟨s + 1 + j, fadeMask ops h w sm (0.3 + 0.4 * fadeAlpha j (e - s)), label⟩
      else
        ⟨s + 1 + j, fadeMask ops h w em (0.7 - 0.4 * fadeAlpha j (e - s)), label⟩
  else []

/-- All writes of one gap: nothing unless `end - start > 1`, else one block of
writes per positive class, in ascending class order. -/
def gapWrites (ops : NumOps) (d h w : Nat) (v : LVol) (ptv : QVol)
    (s e : Nat) : List Write :=
  if 1 < e - s then
    (uniqueLabelsF d h w v).flatMap fun label =>
      if label = 0 then [] else gapClassWrites ops h w v ptv s e label
  else []

/-- All composite writes of one interpolation pass, over consecutive anchor
pairs in order. -/
def passWrites (ops : NumOps) (d h w : Nat) (v : LVol) (ptv : QVol) : List Write :=
  let anchors := anchorSlices d h w v
  (anchors.zip anchors.tail).flatMap fun p => gapWrites ops d h w v ptv p.1 p.2

/-- Apply one composite write. -/
def applyWrite (v : LVol) (wr : Write) : LVol := fun z y x =>
  if z == wr.slice && wr.mask y x then wr.label else v z y x

/-- Apply the writes in program order. -/
def applyWrites (v : LVol) (ws : List Write) : LVol := ws.foldl applyWrite v

/-- Method `_smart_interpolate`: `none` models the "Insufficient Data" warning (the
mask layer is not assigned); otherwise the composited volume. -/
def smartInterpolate (ops : NumOps) (d h w : Nat) (ptv : QVol) (v : LVol) : Option LVol :=
  if (anchorSlices d h w v).length < 2 then none
  else some (applyWrites v (passWrites ops d h w v ptv))

/-- The mask layer after the button press: unchanged when the pass reports
insufficient data. -/
def interpResult (ops : NumOps) (d h w : Nat) (ptv : QVol) (v : LVol) : LVol :=
  (smartInterpolate ops d h w ptv v).getD v

/-- Trivial numeric kernels (blur = identity, distance transform = 0). -/
def zeroOps : NumOps where
  gaussian1 := fun _ _ g => g
  gaussian2 := fun _ _ g => g
  edt := fun _ _ _ _ _ => 0

/-- The all-zero PET volume. -/
def pt0 : QVol := fun _ _ _ => 0

/-- A 5-slice volume annotated only at z = 3 (a single anchor). -/
def vOne : LVol := fun z _ _ => if z = 3 then 1 else 0

/-- A 1×1 PET plane holding 2 at the origin. -/
def sPos : QGrid := fun y x => if y = 0 ∧ x = 0 then (2 : ℚ) else 0

/-- 3 slices, 1×1: class 1 at z=0 only, class 2 at z=2 (so z=2 is an anchor
but class 1 is present in the start anchor only). -/
def vSplit : LVol := fun z _ _ => if z = 0 then 1 else if z = 2 then 2 else 0

/-- C1: with fewer than two anchor slices `_smart_interpolate` reports the
insufficient-data condition and never assigns the mask layer: the label volume
after the button press is bit-identical to its input. -/
theorem insufficient_anchors_no_mutation (ops : NumOps) (d h w : Nat)
    (ptv : QVol) (v : LVol) (hins : (anchorSlices d h w v).length < 2) :
    smartInterpolate ops d h w ptv v = none ∧ interpResult ops d h w ptv v = v := by
  refine ⟨?_, ?_⟩ <;> simp [interpResult, smartInterpolate, hins]

/-- Witness for C1: a volume annotated only at z = 3. -/
theorem insufficient_anchors_no_mutation_witness :
    smartInterpolate zeroOps 5 2 2 pt0 vOne = none ∧
      interpResult zeroOps 5 2 2 pt0 vOne = vOne :=
  insufficient_anchors_no_mutation zeroOps 5 2 2 pt0 vOne (by decide)

/-- C6: the blending parameter of the Gap Interpolator is exactly
`(i + 1) / (num_slices + 1)`, strictly between 0 and 1, and for a 3-interior
gap the alphas are 0.25, 0.5, 0.75 in slice order. -/
theorem alpha_blending_parameter :
    (∀ n i, i < n →
        alphaInterp i n = ((i : ℚ) + 1) / ((n : ℚ) + 1) ∧
          0 < alphaInterp i n ∧ alphaInterp i n < 1) ∧
      alphaInterp 0 3 = 0.25 ∧ alphaInterp 1 3 = 0.5 ∧ alphaInterp 2 3 = 0.75 := by
  refine ⟨fun n i hi => ⟨rfl, ?_, ?_⟩, ?_, ?_, ?_⟩
  · have hn : (0 : ℚ) < (n : ℚ) + 1 := by positivity
    exact div_pos (by positivity) hn
  · have hn : (0 : ℚ) < (n : ℚ) + 1 := by positivity
    rw [alphaInterp, div_lt_one hn]
    have : (i : ℚ) < (n : ℚ) := by exact_mod_cast hi
    linarith
  · norm_num [alphaInterp]
  · norm_num [alphaInterp]
  · norm_num [alphaInterp]

/-- Witness for C6 at i = 1, n = 3. -/
theorem alpha_blending_parameter_witness :
    alphaInterp 1 3 = ((1 : ℚ) + 1) / ((3 : ℚ) + 1) ∧
      0 < alphaInterp 1 3 ∧ alphaInterp 1 3 < 1 :=
  alpha_blending_parameter.1 3 1 (by decide)

lemma mem_insertSortedQ {b a : ℚ} {l : List ℚ} :
    b ∈ insertSortedQ a l ↔ b = a ∨ b ∈ l := by
  induction l with
  | nil => simp [insertSortedQ]
  | cons c t ih =>
    by_cases hac : a ≤ c <;> simp [insertSortedQ, hac, ih] <;> tauto

lemma mem_sortQ {b : ℚ} {l : List ℚ} : b ∈ sortQ l ↔ b ∈ l := by
  induction l with
  | nil => simp [sortQ]
  | cons c t ih =>
    show b ∈ insertSortedQ c (sortQ t) ↔ _
    rw [mem_insertSortedQ, ih]
    simp

lemma length_insertSortedQ (a : ℚ) (l : List ℚ) :
    (insertSortedQ a l).length = l.length + 1 := by
  induction l with
  | nil => simp [insertSortedQ]
  | cons c t ih => by_cases hac : a ≤ c <;> simp [insertSortedQ, hac, ih]

lemma length_sortQ (l : List ℚ) : (sortQ l).length = l.length := by
  induction l with
  | nil => rfl
  | cons c t ih =>
    show (insertSortedQ c (sortQ t)).length = _
    rw [length_insertSortedQ, ih]
    rfl

lemma interpAt_pos {s : List ℚ} {pos : ℚ} (hne : s ≠ [])
    (hpos : ∀ t ∈ s, 0 < t) : 0 < interpAt s pos := by
  have hlen : 0 < s.length := List.length_pos.2 hne
  have hia : min (⌊pos⌋).toNat (s.length - 1) < s.length :=
    lt_of_le_of_lt (min_le_right _ _) (by omega)
  have hib : min ((⌊pos⌋).toNat + 1) (s.length - 1) < s.length :=
    lt_of_le_of_lt (min_le_right _ _) (by omega)
  have ha : 0 < s.getD (min (⌊pos⌋).toNat (s.length - 1)) 0 := by
    rw [List.getD_eq_getElem s 0 hia]
    exact hpos _ (List.getElem_mem hia)
  have hb : 0 < s.getD (min ((⌊pos⌋).toNat + 1) (s.length - 1)) 0 := by
    rw [List.getD_eq_getElem s 0 hib]
    exact hpos _ (List.getElem_mem hib)
  have hf0 : 0 ≤ Int.fract pos := Int.fract_nonneg pos
  have hf1 : Int.fract pos < 1 := Int.fract_lt_one pos
  unfold interpAt
  nlinarith [mul_pos (show (0:ℚ) < 1 - Int.fract pos by linarith) ha,
    mul_nonneg hf0 hb.le]

lemma percentileQ_pos {q : ℚ} {l : List ℚ} (hne : l ≠ []) (hpos : ∀ t ∈ l, 0 < t) :
    0 < percentileQ q l := by
  have hlen : l.length ≠ 0 := fun hc => hne (List.eq_nil_of_length_eq_zero hc)
  rw [percentileQ, if_neg hlen]
  refine interpAt_pos ?_ ?_
  · intro hcon
    exact hlen (by simpa [length_sortQ] using congrArg List.length hcon)
  · intro t ht
    exact hpos t (mem_sortQ.1 ht)

lemma mem_posVals {h w : Nat} {s : QGrid} {t : ℚ} (ht : t ∈ posVals h w s) :
    0 < t := by
  simp only [posVals, List.mem_flatMap, List.mem_filterMap, List.mem_range] at ht
  obtain ⟨y, _, x, _, hxs⟩ := ht
  by_cases hp : 0 < s y x
  · rw [if_pos hp, Option.some_inj] at hxs
    exact hxs ▸ hp
  · rw [if_neg hp] at hxs
    exact absurd hxs (by simp)

lemma posVals_mem_of {h w : Nat} {s : QGrid} {y x : Nat} (hy : y < h) (hx : x < w)
    (hp : 0 < s y x) : s y x ∈ posVals h w s := by
  simp only [posVals, List.mem_flatMap, List.mem_filterMap, List.mem_range]
  exact ⟨y, hy, x, hx, by rw [if_pos hp]⟩

lemma posVals_eq_nonzeroVals {h w : Nat} {s : QGrid}
    (hnn : ∀ y, y < h → ∀ x, x < w → 0 ≤ s y x) :
    posVals h w s = nonzeroVals h w s := by
  unfold posVals nonzeroVals
  refine List.flatMap_congr fun y hy => ?_
  refine List.filterMap_congr fun x hx => ?_
  rw [List.mem_range] at hy hx
  by_cases hz : s y x = 0
  · simp [hz]
  · have hp : 0 < s y x := lt_of_le_of_ne (hnn y hy x hx) (Ne.symm hz)
    simp [hp, hz]

lemma anyPosQ_true_of {h w : Nat} {s : QGrid} {y x : Nat} (hy : y < h) (hx : x < w)
    (hp : 0 < s y x) : anyPosQ h w s = true := by
  simp only [anyPosQ, List.any_eq_true, List.mem_range]
  exact ⟨y, hy, x, hx, decide_eq_true hp⟩

lemma anyPosQ_false {h w : Nat} {s : QGrid}
    (hall : ∀ y, y < h → ∀ x, x < w → s y x = 0) : anyPosQ h w s = false := by
  simp only [anyPosQ, List.any_eq_false, List.mem_range]
  intro y hy hin
  rw [List.any_eq_true] at hin
  obtain ⟨x, hxw, hp⟩ := hin
  rw [List.mem_range] at hxw
  rw [decide_eq_true_eq] at hp
  rw [hall y hy x hxw] at hp
  exact lt_irrefl 0 hp

/-- C5: the intensity-guided path thresholds at the 80th percentile of the
nonzero PET values for class 1, at the 60th for any other class, decides
`intensity > threshold`, and degrades to the all-false mask (instead of
failing) when the PET plane has no nonzero voxel. -/
theorem pt_path_percentile_and_allfalse (h w : Nat) (s : QGrid) (label : Nat)
    (hnn : ∀ y, y < h → ∀ x, x < w → 0 ≤ s y x) :
    ((∃ y, y < h ∧ ∃ x, x < w ∧ s y x ≠ 0) →
        ptThreshold h w s label =
            percentileQ (if label = 1 then 80 else 60) (nonzeroVals h w s) ∧
          ptMask h w s label = fun y x => decide (ptThreshold h w s label < s y x)) ∧
      ((∀ y, y < h → ∀ x, x < w → s y x = 0) →
        ptMask h w s label = fun _ _ => false) := by
  constructor
  · rintro ⟨y, hy, x, hx, hz⟩
    have hp : 0 < s y x := lt_of_le_of_ne (hnn y hy x hx) (Ne.symm hz)
    have hany : anyPosQ h w s = true := anyPosQ_true_of hy hx hp
    have hthr : ptThreshold h w s label =
        percentileQ (if label = 1 then 80 else 60) (posVals h w s) := by
      rw [ptThreshold, if_pos hany]
    have hposthr : 0 < ptThreshold h w s label := by
      rw [hthr]
      exact percentileQ_pos (List.ne_nil_of_mem (posVals_mem_of hy hx hp))
        (fun t ht => mem_posVals ht)
    refine ⟨by rw [hthr, posVals_eq_nonzeroVals hnn], ?_⟩
    rw [ptMask, if_pos hposthr]
  · intro hall
    have hany : anyPosQ h w s = false := anyPosQ_false hall
    have hthr : ptThreshold h w s label = 0 := by
      rw [ptThreshold, hany]
      rfl
    rw [ptMask, hthr, if_neg (lt_irrefl 0)]

/-- Witness for C5: a 1×1 PET plane holding the value 2. -/
theorem pt_path_percentile_witness :
    ptThreshold 1 1 sPos 1 = percentileQ 80 (nonzeroVals 1 1 sPos) ∧
      ptMask 1 1 sPos 1 = fun y x => decide (ptThreshold 1 1 sPos 1 < sPos y x) := by
  have hmain := (pt_path_percentile_and_allfalse 1 1 sPos 1
    (by intro y hy x hx; interval_cases y <;> interval_cases x <;> norm_num [sPos])).1
    ⟨0, by norm_num, 0, by norm_num, by norm_num [sPos]⟩
  simpa using hmain

/-- C4: on every interior slice of the both-anchors case, the decided pixel is
true iff the three path masks fused with the class-dependent weights exceed
the class-dependent threshold: `0.4/0.2/0.4` against `0.4` for class 1,
`0.5/0.4/0.1` against `0.3` for any other class. -/
theorem fusion_weights_and_thresholds (ops : NumOps) (h w : Nat)
    (sm em : BGrid) (pts : Nat → QGrid) (label n i y x : Nat) :
    decidedMask ops h w sm em (pts (i + 1)) label (alphaInterp i n) y x = true ↔
      (if label = 1 then
        (0.4 : ℚ) <
          0.4 * bq (distanceMask ops h w sm em (alphaInterp i n) y x) +
          0.2 * bq (morphMask ops h w sm em (alphaInterp i n) y x) +
          0.4 * bq (ptMask h w (pts (i + 1)) label y x)
      else
        (0.3 : ℚ) <
          0.5 * bq (distanceMask ops h w sm em (alphaInterp i n) y x) +
          0.4 * bq (morphMask ops h w sm em (alphaInterp i n) y x) +
          0.1 * bq (ptMask h w (pts (i + 1)) label y x)) := by
  by_cases hl : label = 1 <;>
    simp [decidedMask, combinedQ, decisionThreshold, hl]

/-- C7: a class present in exactly one anchor of a gap is routed to the fade
fallback: each interior slice thresholds the blurred single available mask at
`0.3 + 0.4*alpha` (present in the start anchor) or `0.7 - 0.4*alpha` (present
in the end anchor); the class is never dropped. -/
theorem fade_fallback_routing (ops : NumOps) (h w : Nat) (v : LVol) (ptv : QVol)
    (s e label : Nat) :
    (anyPixF h w (maskOfF (v s) label) = true →
      anyPixF h w (maskOfF (v e) label) = false →
      gapClassWrites ops h w v ptv s e label =
        (List.range (e - s - 1)).map fun j =>
          ⟨s + 1 + j, fadeMask ops h w (maskOfF (v s) label)
            (0.3 + 0.4 * fadeAlpha j (e - s)), label⟩) ∧
    (anyPixF h w (maskOfF (v s) label) = false →
      anyPixF h w (maskOfF (v e) label) = true →
      gapClassWrites ops h w v ptv s e label =
        (List.range (e - s - 1)).map fun j =>
          ⟨s + 1 + j, fadeMask ops h w (maskOfF (v e) label)
            (0.7 - 0.4 * fadeAlpha j (e - s)), label⟩) := by
  constructor
  · intro hs he
    simp [gapClassWrites, hs, he]
  · intro hs he
    simp [gapClassWrites, hs, he]

/-- Witness for C7: class 1 present only in the start anchor of the gap
(0, 2) of `vSplit`. -/
theorem fade_fallback_routing_witness :
    gapClassWrites zeroOps 1 1 vSplit pt0 0 2 1 =
      (List.range (2 - 0 - 1)).map fun j =>
        ⟨0 + 1 + j, fadeMask zeroOps 1 1 (maskOfF (vSplit 0) 1)
          (0.3 + 0.4 * fadeAlpha j (2 - 0)), 1⟩ :=
  (fade_fallback_routing zeroOps 1 1 vSplit pt0 0 2 1).1 (by decide) (by decide)

lemma applyWrites_val (ws : List Write) (v : LVol) (z y x : Nat) :
    applyWrites v ws z y x = v z y x ∨
      ∃ wr ∈ ws, applyWrites v ws z y x = wr.label := by
  induction ws generalizing v with
  | nil => exact Or.inl rfl
  | cons wr t ih =>
    have hfold : applyWrites v (wr :: t) z y x = applyWrites (applyWrite v wr) t z y x := rfl
    rcases ih (applyWrite v wr) with hsame | ⟨w2, hw2, hval⟩
    · by_cases hc : (z == wr.slice && wr.mask y x) = true
      · refine Or.inr ⟨wr, (List.mem_cons_self _ _), ?_⟩
        rw [hfold, hsame, applyWrite, if_pos hc]
      · refine Or.inl ?_
        rw [hfold, hsame, applyWrite, if_neg hc]
    · exact Or.inr ⟨w2, List.mem_cons_of_mem _ hw2, hfold ▸ hval⟩

end Hecktor
